import Mathlib

set_option maxRecDepth 200000

/-!
Shallow embedding of the subtitle/overlay pipeline of `support_clip`
(`backend/ass_generator.py`, `backend/video_processing.py`,
`backend/video_clipper.py`), together with theorems settling the frozen
claims about it.

Modelling conventions:
* Python `float` values are modelled as `ℚ` (all constants appearing in the
  code are decimal literals, represented exactly).
* Python `str` values are modelled as `List Char` (`Str` below); the string
  helpers used by the source (`strip`, `split`, `in`, `replace`, `isdigit`)
  are re-implemented structurally so that they evaluate inside the kernel.
* Python dictionaries with `.get(key, default)` access are modelled as
  structures whose fields carry the source's default values.
* A Python statement that can raise an exception is modelled with `Option`:
  `none` means the exception propagates (there is no `try/except` anywhere in
  the modelled functions).
-/

namespace SupportClip

/-- Characters Python's `str.strip` removes (ASCII whitespace). -/
def isPySpace (c : Char) : Bool :=
  c == ' ' || c == '\t' || c == '\n' || c == '\r' || c == '\x0b' || c == '\x0c'

/-- Python strings, modelled as lists of characters. -/
abbrev Str := List Char

/-- Python `str.strip()`. -/
def pyStrip (xs : Str) : Str :=
  ((xs.dropWhile isPySpace).reverse.dropWhile isPySpace).reverse

/-- Worker for `splitSeq`; the fuel argument makes the recursion structural. -/
def splitSeqAux (sep : Str) : ℕ → Str → Str → List Str
  | 0, xs, acc => [acc.reverse ++ xs]
  | fuel + 1, xs, acc =>
    match xs with
    | [] => [acc.reverse]
    | c :: rest =>
      if sep.isPrefixOf (c :: rest) then
        acc.reverse :: splitSeqAux sep fuel (List.drop sep.length (c :: rest)) []
      else
        splitSeqAux sep fuel rest (c :: acc)

/-- Python `s.split(sep)` for a non-empty separator (left-to-right,
non-overlapping). -/
def splitSeq (sep xs : Str) : List Str :=
  if sep.isEmpty then [xs] else splitSeqAux sep (xs.length + 1) xs []

/-- Python `sep in s` (substring containment). -/
def containsSeq (sep : Str) : Str → Bool
  | [] => sep.isPrefixOf []
  | c :: rest => sep.isPrefixOf (c :: rest) || containsSeq sep rest

/-- Python `s.replace(old, new)` for a non-empty `old`. -/
def replaceSeq (sep rep xs : Str) : Str :=
  if sep.isEmpty then xs else List.intercalate rep (splitSeq sep xs)

/-- Python `s.isdigit()` (restricted to ASCII digits, the only ones the
modelled inputs contain). -/
def isPyDigitStr (xs : Str) : Bool :=
  !xs.isEmpty && xs.all Char.isDigit

/-- Decimal value of a digit string. -/
def digitsToNat (xs : Str) : ℕ :=
  xs.foldl (fun a c => a * 10 + (c.toNat - 48)) 0

/-- Python `float(s)` restricted to decimal literals
`[sign] digits [. digits]` (the only shape the modelled call sites feed it);
every other string raises `ValueError`, modelled as `none`. -/
def pyFloatQ (xs : Str) : Option ℚ :=
  let sb : Bool × Str :=
    match xs with
    | '-' :: r => (true, r)
    | '+' :: r => (false, r)
    | r => (false, r)
  let body := sb.2
  let ip := body.takeWhile Char.isDigit
  let rest := body.drop ip.length
  match rest with
  | [] =>
    if ip.isEmpty then none
    else some (cond sb.1 (-(digitsToNat ip : ℚ)) (digitsToNat ip : ℚ))
  | '.' :: fp =>
    if fp.all Char.isDigit ∧ (¬ ip.isEmpty ∨ ¬ fp.isEmpty) then
      let v : ℚ := (digitsToNat ip : ℚ) + (digitsToNat fp : ℚ) / ((10 : ℚ) ^ fp.length)
      some (cond sb.1 (-v) v)
    else none
  | _ => none

/-- Python `int(s)` restricted to decimal literals `[sign] digits`. -/
def pyIntZ (xs : Str) : Option ℤ :=
  let sb : Bool × Str :=
    match xs with
    | '-' :: r => (true, r)
    | '+' :: r => (false, r)
    | r => (false, r)
  let body := sb.2
  if body.isEmpty || !body.all Char.isDigit then none
  else some (cond sb.1 (-(digitsToNat body : ℤ)) (digitsToNat body : ℤ))

/-- Python `int(x)` on a float: truncation toward zero. -/
def pyTrunc (q : ℚ) : ℤ :=
  if q < 0 then -((-q).floor) else q.floor

/-- Value of one hexadecimal digit, as accepted by Python `int(s, 16)`. -/
def hexDigitVal (c : Char) : Option ℕ :=
  if c.isDigit then some (c.toNat - 48)
  else if 'a' ≤ c ∧ c ≤ 'f' then some (c.toNat - 87)
  else if 'A' ≤ c ∧ c ≤ 'F' then some (c.toNat - 55)
  else none

/-- Python `int(s, 16)` on a two-character slice. -/
def hexPairVal (c1 c2 : Char) : Option ℕ := do
  let h ← hexDigitVal c1
  let l ← hexDigitVal c2
  some (16 * h + l)

/-- A packed ASS colour `&HAABBGGRR` (`ass_generator.hex_to_ass_color` return
value, kept as its four bytes; ASS alpha `0` is fully opaque, `255` fully
transparent). -/
structure AssColor where
  a : ℕ
  b : ℕ
  g : ℕ
  r : ℕ
deriving DecidableEq, Repr

/-- Body of `hex_to_ass_color` after `lstrip('#')`: a 6-digit colour gets ASS
alpha 0 (opaque), an 8-digit colour gets ASS alpha `255 - AA`, and any other
length falls through to the zero-initialised defaults `r,g,b,a = 0,0,0,0`.
`none` models the `ValueError` of `int(_, 16)` on a non-hex digit. -/
def hexCore : Str → Option AssColor
  | [r1, r2, g1, g2, b1, b2] => do
    let r ← hexPairVal r1 r2
    let g ← hexPairVal g1 g2
    let b ← hexPairVal b1 b2
    some ⟨0, b, g, r⟩
  | [r1, r2, g1, g2, b1, b2, a1, a2] => do
    let r ← hexPairVal r1 r2
    let g ← hexPairVal g1 g2
    let b ← hexPairVal b1 b2
    let cssAlpha ← hexPairVal a1 a2
    some ⟨255 - cssAlpha, b, g, r⟩
  | _ => some ⟨0, 0, 0, 0⟩

/-- `ass_generator.hex_to_ass_color` (lines 3-25). -/
def hexToAssColor (s : Str) : Option AssColor :=
  hexCore (s.dropWhile (· == '#'))

/-- `ass_generator.parse_vtt_time` (lines 27-35): split on `:`, seconds from
the last group as a float, minutes and hours (when present) as ints; a
non-numeric group raises `ValueError` (`none`). Groups beyond the third are
ignored, exactly as in the source. -/
def parseVttTime (s : Str) : Option ℚ :=
  let parts := splitSeq [':'] s
  match parts.reverse with
  | [] => none
  | p0 :: rest =>
    (pyFloatQ p0).bind fun sec =>
      match rest with
      | [] => some sec
      | p1 :: rest2 =>
        (pyIntZ p1).bind fun mins =>
          match rest2 with
          | [] => some (sec + (mins : ℚ) * 60)
          | p2 :: _ =>
            (pyIntZ p2).bind fun hrs =>
              some (sec + (mins : ℚ) * 60 + (hrs : ℚ) * 3600)

/-- One parsed VTT cue (`events` entries of `generate_ass`, lines 183-187). -/
structure RawEvent where
  startSec : ℚ
  endSec : ℚ
  text : Str
deriving DecidableEq, Repr

/-- Parser state of the line loop of `generate_ass` (lines 163-166). -/
structure PState where
  curStart : ℚ := 0
  curEnd : ℚ := 0
  inCue : Bool := false
  textLines : List Str := []
  events : List RawEvent := []
deriving DecidableEq, Repr

/-- One iteration of the VTT line loop of `generate_ass` (lines 168-188).
`none` models an uncaught exception (`ValueError` from `parse_vtt_time`, or
`IndexError` when the ` --> ` split yields fewer than two parts). -/
def stepLine (st : PState) (line : Str) : Option PState :=
  let stripped := pyStrip line
  if containsSeq ('-' :: '-' :: '>' :: []) stripped then
    match splitSeq (' ' :: '-' :: '-' :: '>' :: ' ' :: []) stripped with
    | t1 :: t2 :: _ =>
      (parseVttTime t1).bind fun s =>
        (parseVttTime t2).bind fun e =>
          some { st with curStart := s, curEnd := e, inCue := true, textLines := [] }
    | _ => none
  else if !stripped.isEmpty && st.inCue && !containsSeq "WEBVTT".data stripped then
    if isPyDigitStr stripped && st.textLines.isEmpty then some st
    else some { st with textLines := st.textLines ++ [stripped] }
  else if stripped.isEmpty && st.inCue then
    some { st with
      events :=
        if st.textLines.isEmpty then st.events
        else st.events ++ [⟨st.curStart, st.curEnd, List.intercalate "\\N".data st.textLines⟩],
      inCue := false }
  else
    some st

/-- Flush of a still-open cue at end of input (`generate_ass` lines 190-196). -/
def finishParse (st : PState) : List RawEvent :=
  if st.inCue && !st.textLines.isEmpty then
    st.events ++ [⟨st.curStart, st.curEnd, List.intercalate "\\N".data st.textLines⟩]
  else st.events

/-- Runs the remaining lines from an optional state; `none` (a raised
exception) is absorbing. -/
def runLines (o : Option PState) (lines : List Str) : Option (List RawEvent) :=
  (lines.foldl (fun acc l => acc.bind (fun st => stepLine st l)) o).map finishParse

/-- The VTT parsing phase of `generate_ass` (lines 158-196). -/
def parseVtt (lines : List Str) : Option (List RawEvent) :=
  runLines (some {}) lines

/-- Style dictionary handed to `generate_ass`; each field carries the default
of the corresponding `style_obj.get(key, default)` call in the source.  An
absent `prefixImage` key is the empty string (falsy either way). -/
structure StyleObj where
  fontSize : ℚ := 24
  fontFamily : Str := "Noto Sans JP".data
  fontWeight : Str := "normal".data
  color : Str := "#ffffff".data
  backgroundColor : Str := "#00000080".data
  outlineColor : Str := "#000000".data
  outlineWidth : ℚ := 0
  outerOutlineColor : Str := "#ffffff".data
  outerOutlineWidth : ℚ := 0
  shadowColor : Str := "#000000".data
  shadowBlur : ℚ := 0
  bottom : ℚ := 10
  alignment : Str := "center".data
  prefixVal : Str := []
  prefixImage : Str := []
  prefixImageSize : ℚ := 32
deriving DecidableEq, Repr

/-- Frontend-font to system-font mapping of `create_style_def` (lines 68-75). -/
def fontMapping (fam : Str) : Str :=
  if fam = "Noto Sans JP".data then "Noto Sans CJK JP".data
  else if fam = "Klee One".data then "Noto Serif CJK JP".data
  else if fam = "Dela Gothic One".data then "Noto Sans CJK JP Black".data
  else if fam = "Kilgo U".data then "Noto Sans CJK JP".data
  else "Noto Sans CJK JP".data

/-- The `alignment_map.get(_, 2)` lookup (lines 100-108 and 202-205). -/
def alignmentCode (s : Str) : ℕ :=
  if s = "left".data then 1
  else if s = "center".data then 2
  else if s = "right".data then 3
  else if s = "top-left".data then 7
  else if s = "top".data then 8
  else if s = "top-right".data then 9
  else 2

/-- One row of the `[V4+ Styles]` table as emitted by `create_style_def`.
Colour columns hold the `hex_to_ass_color` results; the remaining columns of
the 23-column format line (Italic, Underline, StrikeOut, ScaleX, ScaleY,
Spacing, Angle, Encoding) are the fixed literals `0,0,0,100,100,0,0` and `1`
in every row and are not repeated here. -/
structure StyleRow where
  name : Str
  fontName : Str
  fontSize : ℤ
  primaryColour : Option AssColor
  secondaryColour : Option AssColor
  outlineColour : Option AssColor
  backColour : Option AssColor
  bold : ℤ
  borderStyle : ℕ
  outlineW : ℤ
  shadow : ℤ
  alignment : ℕ
  marginL : ℤ
  marginR : ℤ
  marginV : ℤ
deriving DecidableEq, Repr

/-- `create_style_def` inside `generate_ass` (lines 61-156): derives the
scaled sizes, margins and colours and emits the `_Box`, optional `_Outer`,
`_Inner` and `_Text` style rows, returning them with the `outer > 0` flag. -/
def createStyleDef (name : Str) (st : StyleObj) (hMult : ℚ) : List StyleRow × Bool :=
  let fontSize := pyTrunc (st.fontSize * (3/2))
  let assFont := fontMapping st.fontFamily
  let bold : ℤ := if st.fontWeight = "bold".data then -1 else 0
  let primaryColour := hexToAssColor st.color
  let backColour := hexToAssColor st.backgroundColor
  let outlineColour := hexToAssColor st.outlineColor
  let outlineWidth := pyTrunc (st.outlineWidth * (3/2))
  let outerOutlineColour := hexToAssColor st.outerOutlineColor
  let outerOutlineWidth := pyTrunc (st.outerOutlineWidth * (3/2))
  let shadowColour := hexToAssColor st.shadowColor
  let shadowBlur := pyTrunc (st.shadowBlur * (3/2))
  let marginV := pyTrunc (st.bottom * (108/10))
  let alignment := alignmentCode st.alignment
  let totalOutline := outlineWidth + outerOutlineWidth
  let boxPadding := max outlineWidth 8
  let marginL : ℤ :=
    if alignment = 1 ∨ alignment = 7 then
      150 +
        (if ¬ st.prefixImage.isEmpty then
          pyTrunc (((pyTrunc st.prefixImageSize + 10 : ℤ) : ℚ) * hMult)
        else 0)
    else 96
  let marginR : ℤ :=
    if alignment = 1 ∨ alignment = 7 then 96
    else if alignment = 3 ∨ alignment = 9 then 150
    else 96
  let opq : Option AssColor := some ⟨0, 0, 0, 0⟩
  let boxRow : StyleRow :=
    ⟨name ++ "_Box".data, assFont, fontSize, some ⟨255, 0, 0, 0⟩, opq, backColour,
      backColour, bold, 3, boxPadding, 0, alignment, marginL, marginR, marginV⟩
  let outerRows : List StyleRow :=
    if 0 < outerOutlineWidth then
      [⟨name ++ "_Outer".data, assFont, fontSize, outerOutlineColour, opq,
        outerOutlineColour, shadowColour, bold, 1, totalOutline, shadowBlur, alignment,
        marginL, marginR, marginV⟩]
    else []
  let shadowValue : ℤ := if outerOutlineWidth = 0 then shadowBlur else 0
  let innerRow : StyleRow :=
    ⟨name ++ "_Inner".data, assFont, fontSize, primaryColour, opq, outlineColour,
      shadowColour, bold, 1, outlineWidth, shadowValue, alignment, marginL, marginR, marginV⟩
  let textRow : StyleRow :=
    ⟨name ++ "_Text".data, assFont, fontSize, primaryColour, opq, opq, opq,
      bold, 1, 0, 0, alignment, marginL, marginR, marginV⟩
  (boxRow :: outerRows ++ [innerRow, textRow], decide (0 < outerOutlineWidth))

/-- Style-name sanitisation `name.replace(" ", "_").replace(",", "")`
(lines 218 and 356). -/
def sanitizeName (n : Str) : Str :=
  replaceSeq [','] [] (replaceSeq [' '] ['_'] n)

/-- One entry of `expanded_events` (`generate_ass` lines 249-260). -/
structure ExpandedEvent where
  start : ℚ
  stop : ℚ
  text : Str
  styleName : Str
  alignment : ℕ
  hasOuter : Bool
  prefixVal : Str
  fontSize : ℤ
  baseMarginV : ℤ
  boxPadding : ℤ
deriving DecidableEq, Repr

/-- Per-cue style expansion (`generate_ass` lines 207-260).  Note the source
quirk kept here: when `style_map` names this cue but the name is missing from
`saved_styles`, `has_outer` stays `False` and the Default style object is
used without recomputing its own outer-outline flag. -/
def expandEvent (styles : StyleObj) (savedStyles : List (Str × StyleObj))
    (styleMap : List (ℕ × Str)) (i : ℕ) (ev : RawEvent) : ExpandedEvent :=
  let resolved : Str × StyleObj × Bool :=
    match styleMap.lookup i with
    | some mapped =>
      match savedStyles.lookup mapped with
      | some so => (sanitizeName mapped, so, decide (0 < pyTrunc (so.outerOutlineWidth * (3/2))))
      | none => ("Default".data, styles, false)
    | none => ("Default".data, styles, decide (0 < pyTrunc (styles.outerOutlineWidth * (3/2))))
  let styleObj := resolved.2.1
  let prefixVal := if ¬ styleObj.prefixImage.isEmpty then [] else styleObj.prefixVal
  ⟨ev.startSec, ev.endSec, ev.text, resolved.1, alignmentCode styleObj.alignment,
    resolved.2.2, prefixVal, pyTrunc (styleObj.fontSize * (3/2)),
    pyTrunc (styleObj.bottom * (108/10)), max (pyTrunc (styleObj.outlineWidth * (3/2))) 8⟩

/-- The whole pre-calculation loop over parsed events (lines 198-260). -/
def expandEvents (styles : StyleObj) (savedStyles : List (Str × StyleObj))
    (styleMap : List (ℕ × Str)) (evs : List RawEvent) : List ExpandedEvent :=
  evs.enum.map (fun p => expandEvent styles savedStyles styleMap p.1 p.2)

/-- Sorted distinct start/end timestamps (`generate_ass` lines 267-272;
`sorted(set(..))` produces exactly the sorted deduplicated list). -/
def boundaryPoints (evs : List ExpandedEvent) : List ℚ :=
  (((evs.map (·.start)) ++ evs.map (·.stop)).dedup).insertionSort (· ≤ ·)

/-- Consecutive boundary pairs `(times[j], times[j+1])` (line 275-277). -/
def pairsOf (l : List ℚ) : List (ℚ × ℚ) := l.zip l.tail

/-- Activity test `e["start"] <= mid and e["end"] > mid` (line 285). -/
def activePred (mid : ℚ) (e : ExpandedEvent) : Bool :=
  decide (e.start ≤ mid) && decide (mid < e.stop)

/-- Events active at the midpoint of an interval (line 285). -/
def activeAt (evs : List ExpandedEvent) (mid : ℚ) : List ExpandedEvent :=
  evs.filter (activePred mid)

/-- Boundary pairs that survive the `< 0.01` width guard and have a
non-empty active set (lines 279-287). -/
def emittedPairs (evs : List ExpandedEvent) : List (ℚ × ℚ) :=
  (pairsOf (boundaryPoints evs)).filter
    (fun p => !decide (p.2 - p.1 < 1/100) && !(activeAt evs ((p.1 + p.2) / 2)).isEmpty)

/-- Distinct keys in first-appearance order (the key order of a Python dict);
`seen` accumulates the keys already emitted. -/
def firstDedup (seen : List ℕ) : List ℕ → List ℕ
  | [] => []
  | a :: t => if seen.contains a then firstDedup seen t else a :: firstDedup (a :: seen) t

/-- Grouping of the active events by alignment (lines 289-294): a Python dict
keyed by alignment preserves first-insertion key order, and each group keeps
encounter order, which is exactly a filter per first-appearance key. -/
def alignGroups (l : List ExpandedEvent) : List (List ExpandedEvent) :=
  (firstDedup [] (l.map (·.alignment))).map (fun a => l.filter (fun e => e.alignment == a))

/-- Display text `f"{prefix} {text}" if prefix else text` (line 303). -/
def dispText (e : ExpandedEvent) : Str :=
  if ¬ e.prefixVal.isEmpty then e.prefixVal ++ (' ' :: e.text) else e.text

/-- All stacked lines of a group, split on the literal `\N` (lines 301-306). -/
def linesOf (g : List ExpandedEvent) : List Str :=
  g.flatMap (fun e => splitSeq "\\N".data (dispText e))

/-- Top-anchored alignment test `primary['alignment'] in [7, 8, 9]`. -/
def topAligned (a : ℕ) : Bool := a == 7 || a == 8 || a == 9

/-- The per-line vertical margin `int(base_v + offset_idx*(line_height+gap))`
with `line_height = font_size*1.1` and `gap = 3` (lines 308-321). -/
def stackMarginV (primary : ExpandedEvent) (n k : ℕ) : ℤ :=
  let offIdx : ℕ := if topAligned primary.alignment then k else n - 1 - k
  pyTrunc ((primary.baseMarginV : ℚ) + (offIdx : ℚ) * ((primary.fontSize : ℚ) * (11/10) + 3))

/-- One merged (flattened) event line (lines 323-331). -/
structure MergedEvent where
  start : ℚ
  stop : ℚ
  styleName : Str
  hasOuter : Bool
  alignment : ℕ
  lineText : Str
  marginV : ℤ
deriving DecidableEq, Repr

/-- Stacking of one alignment group of one interval (lines 297-331);
`primary = group[0]` supplies every visual parameter. -/
def stackLines (t0 t1 : ℚ) (g : List ExpandedEvent) : List MergedEvent :=
  match g with
  | [] => []
  | primary :: _ =>
    let lines := linesOf g
    lines.enum.map (fun p =>
      ⟨t0, t1, primary.styleName, primary.hasOuter, primary.alignment, p.2,
        stackMarginV primary lines.length p.1⟩)

/-- The full overlap-flattening merge loop of `generate_ass` (lines 264-331). -/
def mergedEvents (evs : List ExpandedEvent) : List MergedEvent :=
  (emittedPairs evs).flatMap (fun p =>
    (alignGroups (activeAt evs ((p.1 + p.2) / 2))).flatMap (stackLines p.1 p.2))

/-- The flattened interval list, i.e. the `(t_start, t_end)` windows the merge
loop emits events for (projection of the same loop). -/
def flattenedIntervals (evs : List ExpandedEvent) : List (ℚ × ℚ) :=
  emittedPairs evs

/-- Explicit anchor position of a line (lines 377-402): x from the alignment
class, y measured from the bottom for alignments 1-3 and from the top
otherwise, in the 1920x1080 reference space. -/
def posFor (align : ℕ) (mv : ℤ) : ℤ × ℤ :=
  let x : ℤ :=
    if align = 1 ∨ align = 7 then 150
    else if align = 3 ∨ align = 9 then 1920 - 150
    else 1920 / 2
  let y : ℤ := if align = 1 ∨ align = 2 ∨ align = 3 then 1080 - mv else mv
  (x, y)

/-- One emitted `Dialogue:` row (lines 406-417). -/
structure DialogueLine where
  layer : ℕ
  start : ℚ
  stop : ℚ
  styleRef : Str
  posX : ℤ
  posY : ℤ
  lineText : Str
deriving DecidableEq, Repr

/-- Dialogue rows for one merged line (lines 406-417): layer 0 `_Box` always,
layer 1 `_Outer` only when `has_outer`, then layer 2 `_Inner` and layer 3
`_Text`, all with the same times, position tag and text. -/
def dialoguesFor (m : MergedEvent) : List DialogueLine :=
  let p := posFor m.alignment m.marginV
  ⟨0, m.start, m.stop, m.styleName ++ "_Box".data, p.1, p.2, m.lineText⟩ ::
    ((if m.hasOuter then
        [⟨1, m.start, m.stop, m.styleName ++ "_Outer".data, p.1, p.2, m.lineText⟩]
      else []) ++
      [⟨2, m.start, m.stop, m.styleName ++ "_Inner".data, p.1, p.2, m.lineText⟩,
       ⟨3, m.start, m.stop, m.styleName ++ "_Text".data, p.1, p.2, m.lineText⟩])

/-- The event-emission loop of `generate_ass` (lines 369-417). -/
def allDialogues (evs : List ExpandedEvent) : List DialogueLine :=
  (mergedEvents evs).flatMap dialoguesFor

/-- Python `min(range(n), key=lambda i: lane_available_times[i])`
(`generate_danmaku_ass` line 508): the first index attaining the minimum. -/
def argminIdx (l : List ℚ) : ℕ :=
  (List.range l.length).foldl (fun best i => if l.getD i 0 < l.getD best 0 then i else best) 0

/-- Lane selection of `generate_danmaku_ass` (lines 499-508): first lane in
shuffled order whose available-after time is at or before the comment start,
else the lane with globally minimal available-after time. -/
def chooseLane (avail : List ℚ) (perm : List ℕ) (start : ℚ) : ℕ :=
  match perm.find? (fun i => decide (avail.getD i 0 ≤ start)) with
  | some i => i
  | none => argminIdx avail

/-- Lane occupancy update `lane_available_times[chosen] = start + duration*0.3`
(line 510). -/
def updateLanes (avail : List ℚ) (c : ℕ) (start dur : ℚ) : List ℚ :=
  avail.set c (start + dur * (3/10))

/-- Estimated comment width `len(text) * font_size * 2.0` (line 479). -/
def estimatedWidth (textLen : ℕ) (fontSize : ℚ) : ℚ := (textLen : ℚ) * fontSize * 2

/-- Scroll entry point `resolution_x + 100` (line 482). -/
def danmakuStartX (resX : ℚ) : ℚ := resX + 100

/-- Scroll exit point `-(estimated_width + 300)` (line 483). -/
def danmakuEndX (textLen : ℕ) (fontSize : ℚ) : ℚ :=
  -(estimatedWidth textLen fontSize + 300)

/-- Total travel distance `start_x - end_x` (line 487). -/
def danmakuDistance (resX : ℚ) (textLen : ℕ) (fontSize : ℚ) : ℚ :=
  danmakuStartX resX - danmakuEndX textLen fontSize

/-- Lower end of the hard-coded speed band `random.uniform(600, 700)`
(line 491). -/
def speedBandLo : ℚ := 600

/-- Upper end of the hard-coded speed band `random.uniform(600, 700)`
(line 491). -/
def speedBandHi : ℚ := 700

/-- Duration and end time of one scrolling comment (lines 475-497):
`duration = total_distance / base_speed`, `end = start + duration`.  The
`speedMin`/`speedMax` arguments mirror the `speed_min=8, speed_max=12`
parameters of `generate_danmaku_ass`, which its body never reads; `speed`
stands for the `random.uniform(600, 700)` draw. -/
def danmakuTiming (resX : ℚ) (textLen : ℕ) (fontSize : ℚ)
    (speedMin speedMax : ℚ) (start speed : ℚ) : ℚ × ℚ :=
  let duration := danmakuDistance resX textLen fontSize / speed
  (duration, start + duration)

/-- Decimal digits of a natural number (fuel-based to stay structural). -/
def natDigits : ℕ → ℕ → Str
  | 0, _ => []
  | fuel + 1, n =>
    if n < 10 then [Char.ofNat (48 + n)]
    else natDigits fuel (n / 10) ++ [Char.ofNat (48 + n % 10)]

/-- Decimal rendering of a natural number. -/
def natToStr (n : ℕ) : Str := natDigits (n + 1) n

/-- Crop parameters of `extract_clip` after the `int(..)` conversions
(`video_clipper.py` lines 26-30). -/
structure CropParams where
  x : ℤ
  y : ℤ
  w : ℤ
  h : ℤ
deriving DecidableEq, Repr

/-- One emoji overlay descriptor handed to `extract_clip`
(`emoji_overlays` entries produced by `generate_danmaku_ass`). -/
structure EmojiOverlay where
  path : Str
  xExpr : Str
  startT : ℚ
  stopT : ℚ
  yPos : ℤ
  size : ℤ
deriving DecidableEq, Repr

/-- One prefix-image overlay descriptor of `burn_subtitles_with_ffmpeg`
(`video_processing.py` lines 95-102). -/
structure ImgOverlay where
  imageUrl : Str
  startT : ℚ
  stopT : ℚ
  size : ℤ
  bottomPercent : ℚ
  alignment : Str
deriving DecidableEq, Repr

/-- One node of an assembled ffmpeg filter graph.  Input/output pad labels are
carried verbatim; the x/y position expression strings of overlay nodes (pure
payload, irrelevant to the graph wiring) are not repeated on the node. -/
inductive FNode where
  | cropNode (inp out : Str) (w h x y : ℤ)
  | padNode (inp out : Str)
  | subBurn (inp out : Str) (path : Str)
  | movieSrc (out : Str) (path : Str)
  | scaleNode (inp out : Str) (size : ℤ)
  | overlayNode (vidIn imgIn out : Str) (enStart enStop : ℚ)
deriving DecidableEq, Repr

/-- Label `[raw_emoji_i]` (`video_clipper.py` line 61). -/
def rawEmojiLbl (i : ℕ) : Str := "[raw_emoji_".data ++ natToStr i ++ "]".data

/-- Label `[imgi]` (`video_clipper.py` line 62, `video_processing.py` 251). -/
def imgLbl (i : ℕ) : Str := "[img".data ++ natToStr i ++ "]".data

/-- Label `[v_emoji_i]` (`video_clipper.py` line 57). -/
def vEmojiLbl (i : ℕ) : Str := "[v_emoji_".data ++ natToStr i ++ "]".data

/-- Label `[i:v]` of the i-th ffmpeg input (`video_processing.py` line 187). -/
def inputLbl (i : ℕ) : Str := "[".data ++ natToStr i ++ ":v]".data

/-- Label `[vi]` (`video_processing.py` line 248). -/
def vLbl (i : ℕ) : Str := "[v".data ++ natToStr i ++ "]".data

/-- The per-emoji filter chain of `extract_clip` (lines 47-65): movie source,
scale, then overlay onto the current video stream, threading the new label. -/
def emojiChain (i : ℕ) (cur : Str) : List EmojiOverlay → List FNode
  | [] => []
  | ov :: rest =>
    FNode.movieSrc (rawEmojiLbl i) ov.path ::
    FNode.scaleNode (rawEmojiLbl i) (imgLbl i) ov.size ::
    FNode.overlayNode cur (imgLbl i) (vEmojiLbl i) ov.startT ov.stopT ::
    emojiChain (i + 1) (vEmojiLbl i) rest

/-- The crop and 9:16-pad stages of `extract_clip` (`video_clipper.py` lines
23-38): the crop node is added only when both dimensions are positive. -/
def preChain (crop : Option CropParams) (aspect916 : Bool) : List FNode × Str :=
  let s0 : List FNode × Str := ([], "[0:v]".data)
  let s1 : List FNode × Str :=
    match crop with
    | some c =>
      if 0 < c.w ∧ 0 < c.h then
        (s0.1 ++ [FNode.cropNode s0.2 "[cropped]".data c.w c.h c.x c.y], "[cropped]".data)
      else s0
    | none => s0
  if aspect916 then (s1.1 ++ [FNode.padNode s1.2 "[916]".data], "[916]".data) else s1

/-- The filter-graph assembly of `extract_clip` (`video_clipper.py` lines
22-65): crop (when both dimensions positive), 9:16 pad, danmaku subtitle
burn, then the emoji overlay chain; returns the node list and the final
`-map` label. -/
def extractClipFilters (crop : Option CropParams) (aspect916 : Bool)
    (danmaku : Option Str) (emojis : List EmojiOverlay) : List FNode × Str :=
  let s2 : List FNode × Str := preChain crop aspect916
  let s3 : List FNode × Str :=
    match danmaku with
    | some p => (s2.1 ++ [FNode.subBurn s2.2 "[danmaku]".data p], "[danmaku]".data)
    | none => s2
  (s3.1 ++ emojiChain 0 s3.2 emojis,
    if emojis.isEmpty then s3.2 else vEmojiLbl (emojis.length - 1))

/-- The per-image chain of `burn_subtitles_with_ffmpeg` (lines 186-264): the
i-th image input is scaled and overlaid onto the current stream; the source
renames the final `[v n]` label to `[out]` with a string replace, modelled
here by labelling the last overlay output `[out]` directly. -/
def burnChain (total : ℕ) (i : ℕ) (cur : Str) : List ImgOverlay → List FNode
  | [] => []
  | ov :: rest =>
    let outLbl := if i + 1 = total then "[out]".data else vLbl (i + 1)
    FNode.scaleNode (inputLbl (i + 1)) (imgLbl i) ov.size ::
    FNode.overlayNode cur (imgLbl i) outLbl ov.startT ov.stopT ::
    burnChain total (i + 1) outLbl rest

/-- The filter graph of `burn_subtitles_with_ffmpeg` (lines 149-266): with no
image overlays a single subtitle-burn filter (`-vf`, label normalised to
`[out]`); otherwise the subtitle burn into `[subt]` followed by the image
overlay chain. -/
def burnFilters (assPath : Str) (overlays : List ImgOverlay) : List FNode :=
  if overlays.isEmpty then [FNode.subBurn "[0:v]".data "[out]".data assPath]
  else
    FNode.subBurn "[0:v]".data "[subt]".data assPath ::
      burnChain overlays.length 0 "[subt]".data overlays

/-- The video-input and output labels of every overlay node of a graph. -/
def overlayWiring (ns : List FNode) : List (Str × Str) :=
  ns.filterMap (fun n =>
    match n with
    | FNode.overlayNode v _ o _ _ => some (v, o)
    | _ => none)

/-- A pad label derives from `base` when it is `base` itself or the output of
an overlay node whose video input derives from `base`. -/
inductive DerivesFrom (ns : List FNode) (base : Str) : Str → Prop where
  | refl : DerivesFrom ns base base
  | step {v img out s e} : FNode.overlayNode v img out s e ∈ ns →
      DerivesFrom ns base v → DerivesFrom ns base out

/-- A style object with every key absent: all `.get` defaults apply
(white text, `#00000080` background, centred, bottom 10%). -/
def defaultStyle : StyleObj := {}

/-- Scenario A input cues: `{0.0-3.0, "Hello"}` and `{1.0-2.0, "World"}`. -/
def c1Raw : List RawEvent := [⟨0, 3, "Hello".data⟩, ⟨1, 2, "World".data⟩]

/-- Scenario A expanded events (Default style, no style map). -/
def c1Events : List ExpandedEvent := expandEvents defaultStyle [] [] c1Raw

/-- Overlapping cues `[0,1]` and `[0.995,2]` whose middle boundary slice
`[0.995,1)` is narrower than 0.01s. -/
def c2Raw : List RawEvent := [⟨0, 1, "A".data⟩, ⟨mkRat 199 200, 2, "B".data⟩]

/-- Expanded form of `c2Raw` under the Default style. -/
def c2Events : List ExpandedEvent := expandEvents defaultStyle [] [] c2Raw

/-- Membership of an instant in the union of the cue time ranges. -/
def inUnionQ (evs : List ExpandedEvent) (x : ℚ) : Bool :=
  evs.any (fun e => decide (e.start ≤ x) && decide (x < e.stop))

/-- Coverage of an instant by one of the emitted flattened intervals. -/
def coveredQ (ps : List (ℚ × ℚ)) (x : ℚ) : Bool :=
  ps.any (fun p => decide (p.1 ≤ x) && decide (x < p.2))

/-- A style whose background colour `#000000` is fully opaque. -/
def opaqueBgStyle : StyleObj := { backgroundColor := "#000000".data }

/-- A single cue rendered with `opaqueBgStyle`. -/
def c3Events : List ExpandedEvent := expandEvents opaqueBgStyle [] [] [⟨0, 1, "Hi".data⟩]

/-- A VTT cue timing line with a non-numeric time group. -/
def malformedTimingLine : Str := "x --> 0:05".data

/-- VTT input with one malformed timing line between two well-formed cues. -/
def c4BadLines : List Str :=
  ["0:01 --> 0:02", "Hi", "", "x --> 0:05", "Hm", "", "0:06 --> 0:07", "Yo"].map String.data

/-- The same VTT input with the malformed cue removed. -/
def c4GoodLines : List Str :=
  ["0:01 --> 0:02", "Hi", "", "0:06 --> 0:07", "Yo"].map String.data

/-- A style with fractional `outerOutlineWidth = 0.5` and `shadowBlur = 5`. -/
def c6FracStyle : StyleObj := { outerOutlineWidth := mkRat 1 2, shadowBlur := 5 }

/-- Scenario C style with `outerOutlineWidth = 0`, `shadowBlur = 5`. -/
def c6InnerStyle : StyleObj := { outerOutlineWidth := 0, shadowBlur := 5 }

/-- Scenario C style with `outerOutlineWidth = 3`, `shadowBlur = 5`. -/
def c6OuterStyle : StyleObj := { outerOutlineWidth := 3, shadowBlur := 5 }

/-- A named style kept at the default visual parameters. -/
def styleA : StyleObj := {}

/-- A second named style with very different visual parameters. -/
def styleB : StyleObj := { fontSize := 60, outerOutlineWidth := 2, bottom := 20 }

/-- Two fully overlapping cues assigned to styles `A` and `B`. -/
def c10Raw : List RawEvent := [⟨0, 2, "Atext".data⟩, ⟨0, 2, "Btext".data⟩]

/-- Expanded events of `c10Raw` with the style map `0 ↦ A`, `1 ↦ B`. -/
def c10Events : List ExpandedEvent :=
  expandEvents defaultStyle [("A".data, styleA), ("B".data, styleB)]
    [(0, "A".data), (1, "B".data)] c10Raw

/-- The merged line that carries `Btext` in the `c10Events` interval. -/
def c10MergedB : MergedEvent := ⟨0, 2, "A".data, false, 2, "Btext".data, 108⟩

/-- The single merged line of `c3Events`. -/
def c3Merged : MergedEvent := ⟨0, 1, "Default".data, false, 2, "Hi".data, 108⟩

/-- Two concrete emoji overlay descriptors. -/
def c9Emojis : List EmojiOverlay :=
  [⟨"e0.png".data, "x0".data, 1, 2, 100, 57⟩,
   ⟨"e1.png".data, "x1".data, 3, 4, 200, 57⟩]

/-- The filter graph of an `extract_clip` call with danmaku subtitles and the
two emoji overlays. -/
def c9Graph : List FNode :=
  (extractClipFilters none false (some "d.ass".data) c9Emojis).1

/-- One concrete prefix-image overlay descriptor. -/
def c9Imgs : List ImgOverlay := [⟨"p.png".data, 0, 5, 32, 10, "left".data⟩]

theorem lem_pairsOf_length (l : List ℚ) : (pairsOf l).length = l.length - 1 := by
  rw [pairsOf, List.length_zip, List.length_tail]
  exact Nat.min_eq_right (Nat.sub_le _ _)

theorem lem_pairsOf_getElem (l : List ℚ) (i : ℕ) (h : i < (pairsOf l).length) :
    ∃ (h1 : i < l.length) (h2 : i + 1 < l.length),
      (pairsOf l)[i] = (l[i], l[i + 1]) := by
  have hl := lem_pairsOf_length l
  have h1 : i < l.length := by omega
  have h2 : i + 1 < l.length := by omega
  refine ⟨h1, h2, ?_⟩
  simp [pairsOf, List.getElem_zip, List.getElem_tail]

theorem lem_mem_pairsOf {l : List ℚ} {p : ℚ × ℚ} (hp : p ∈ pairsOf l) :
    ∃ i, ∃ (h1 : i < l.length) (h2 : i + 1 < l.length),
      p.1 = l[i] ∧ p.2 = l[i + 1] := by
  obtain ⟨i, hi, hEq⟩ := List.mem_iff_getElem.mp hp
  obtain ⟨h1, h2, hg⟩ := lem_pairsOf_getElem l i hi
  rw [hg] at hEq
  exact ⟨i, h1, h2, by rw [← hEq], by rw [← hEq]⟩

theorem lem_sorted_getElem_le {l : List ℚ} (hs : l.Sorted (· < ·)) {i j : ℕ}
    (h1 : i < l.length) (h2 : j < l.length) (hij : i ≤ j) : l[i] ≤ l[j] := by
  rcases Nat.eq_or_lt_of_le hij with h | h
  · subst h; exact le_refl _
  · exact le_of_lt (List.pairwise_iff_getElem.mp hs i j h1 h2 h)

theorem lem_pairs_lt {l : List ℚ} (hs : l.Sorted (· < ·)) {p : ℚ × ℚ}
    (hp : p ∈ pairsOf l) : p.1 < p.2 := by
  obtain ⟨i, h1, h2, e1, e2⟩ := lem_mem_pairsOf hp
  rw [e1, e2]
  exact List.pairwise_iff_getElem.mp hs i (i + 1) h1 h2 (Nat.lt_succ_self i)

theorem lem_pairs_pairwise {l : List ℚ} (hs : l.Sorted (· < ·)) :
    (pairsOf l).Pairwise (fun p q : ℚ × ℚ => p.2 ≤ q.1) := by
  rw [List.pairwise_iff_getElem]
  intro i j hi hj hij
  obtain ⟨hi1, hi2, hgi⟩ := lem_pairsOf_getElem l i hi
  obtain ⟨hj1, hj2, hgj⟩ := lem_pairsOf_getElem l j hj
  rw [hgi, hgj]
  exact lem_sorted_getElem_le hs hi2 hj1 (by omega)

theorem lem_consec_gap {l : List ℚ} (hs : l.Sorted (· < ·)) {p : ℚ × ℚ}
    (hp : p ∈ pairsOf l) {c : ℚ} (hc : c ∈ l) : c ≤ p.1 ∨ p.2 ≤ c := by
  obtain ⟨i, h1, h2, e1, e2⟩ := lem_mem_pairsOf hp
  obtain ⟨k, hk, hkc⟩ := List.mem_iff_getElem.mp hc
  rcases le_or_lt k i with h | h
  · left; rw [e1, ← hkc]; exact lem_sorted_getElem_le hs hk h1 h
  · right; rw [e2, ← hkc]; exact lem_sorted_getElem_le hs h2 hk h

theorem lem_pairsOf_cons₂ (a b : ℚ) (t : List ℚ) :
    pairsOf (a :: b :: t) = (a, b) :: pairsOf (b :: t) := rfl

theorem lem_locate : ∀ {l : List ℚ}, l.Sorted (· < ·) → ∀ {c d x : ℚ},
    c ∈ l → d ∈ l → c ≤ x → x < d → ∃ p ∈ pairsOf l, p.1 ≤ x ∧ x < p.2 := by
  intro l
  induction l with
  | nil => intro _ c _ _ hc; exact absurd hc (List.not_mem_nil c)
  | cons a t ih =>
    intro hs c d x hc hd hcx hxd
    cases t with
    | nil =>
      rw [List.mem_singleton] at hc hd
      subst hc; subst hd; linarith
    | cons b t' =>
      have hab : a < b := List.rel_of_sorted_cons hs b (List.mem_cons_self b t')
      have hst : (b :: t').Sorted (· < ·) := hs.of_cons
      by_cases hxb : x < b
      · have hax : a ≤ x := by
          rcases List.mem_cons.mp hc with rfl | hct
          · exact hcx
          · have hbc : b ≤ c := by
              rcases List.mem_cons.mp hct with rfl | h
              · exact le_refl _
              · exact le_of_lt (List.rel_of_sorted_cons hst _ h)
            linarith
        exact ⟨(a, b), by rw [lem_pairsOf_cons₂]; exact List.mem_cons_self _ _, hax, hxb⟩
      · push_neg at hxb
        have hdt : d ∈ b :: t' := by
          rcases List.mem_cons.mp hd with rfl | h
          · linarith
          · exact h
        obtain ⟨p, hp, hpx⟩ := ih hst (List.mem_cons_self b t') hdt hxb hxd
        exact ⟨p, by rw [lem_pairsOf_cons₂]; exact List.mem_cons_of_mem _ hp, hpx⟩

theorem lem_boundary_sorted (evs : List ExpandedEvent) :
    (boundaryPoints evs).Sorted (· < ·) := by
  have h1 : (boundaryPoints evs).Sorted (· ≤ ·) := List.sorted_insertionSort _ _
  have h2 : (boundaryPoints evs).Nodup :=
    (List.perm_insertionSort _ _).nodup_iff.mpr (List.nodup_dedup _)
  exact h1.lt_of_le h2

theorem lem_mem_boundary_start {evs : List ExpandedEvent} {e : ExpandedEvent}
    (he : e ∈ evs) : e.start ∈ boundaryPoints evs :=
  (List.perm_insertionSort _ _).mem_iff.mpr
    (List.mem_dedup.mpr (List.mem_append_left _ (List.mem_map_of_mem _ he)))

theorem lem_mem_boundary_stop {evs : List ExpandedEvent} {e : ExpandedEvent}
    (he : e ∈ evs) : e.stop ∈ boundaryPoints evs :=
  (List.perm_insertionSort _ _).mem_iff.mpr
    (List.mem_dedup.mpr (List.mem_append_right _ (List.mem_map_of_mem _ he)))

theorem lem_mem_activeAt {evs : List ExpandedEvent} {mid : ℚ} {e : ExpandedEvent} :
    e ∈ activeAt evs mid ↔ e ∈ evs ∧ e.start ≤ mid ∧ mid < e.stop := by
  simp [activeAt, activePred, List.mem_filter]

theorem lem_mem_emitted {evs : List ExpandedEvent} {p : ℚ × ℚ} :
    p ∈ emittedPairs evs ↔
      p ∈ pairsOf (boundaryPoints evs) ∧ ¬(p.2 - p.1 < 1/100) ∧
        activeAt evs ((p.1 + p.2) / 2) ≠ [] := by
  simp [emittedPairs, List.mem_filter, List.isEmpty_iff]

theorem lem_inUnion_iff {evs : List ExpandedEvent} {x : ℚ} :
    inUnionQ evs x = true ↔ ∃ e ∈ evs, e.start ≤ x ∧ x < e.stop := by
  simp [inUnionQ, List.any_eq_true]

theorem lem_covered_iff {ps : List (ℚ × ℚ)} {x : ℚ} :
    coveredQ ps x = true ↔ ∃ p ∈ ps, p.1 ≤ x ∧ x < p.2 := by
  simp [coveredQ, List.any_eq_true]

/-- C1: the two Default-styled cues `{0.0-3.0, "Hello"}` and
`{1.0-2.0, "World"}` flatten into exactly the intervals `[0,1)`, `[1,2)` and
`[2,3)`; the outer intervals carry the single line `Hello`, only the middle
interval stacks two lines, and there `Hello` (vertical margin 150) sits above
`World` (vertical margin 108, the smaller offset, nearest the bottom edge):
the anchor y of `Hello` is strictly above that of `World`. -/
theorem c1_overlap_scenario :
    mergedEvents c1Events =
      [⟨0, 1, "Default".data, false, 2, "Hello".data, 108⟩,
       ⟨1, 2, "Default".data, false, 2, "Hello".data, 150⟩,
       ⟨1, 2, "Default".data, false, 2, "World".data, 108⟩,
       ⟨2, 3, "Default".data, false, 2, "Hello".data, 108⟩] ∧
    flattenedIntervals c1Events = [(0, 1), (1, 2), (2, 3)] ∧
    (posFor 2 150).2 < (posFor 2 108).2 := by
  refine ⟨?_, ?_, ?_⟩ <;> with_unfolding_all decide

/-- C2 counterexample: the overlapping same-alignment cues `[0,1]` and
`[0.995,2]` do not tile their union: the boundary slice `[0.995,1)` is
narrower than 0.01s and is dropped, so the instant `0.9975` lies inside the
union of the cue ranges but inside no emitted interval. -/
theorem c2_tiling_cex :
    (c2Events.map (fun e => e.alignment)).dedup = [2] ∧
    (0 : ℚ) ≤ mkRat 199 200 ∧ mkRat 199 200 < 1 ∧
    flattenedIntervals c2Events = [(0, mkRat 199 200), (1, 2)] ∧
    inUnionQ c2Events (mkRat 399 400) = true ∧
    coveredQ (flattenedIntervals c2Events) (mkRat 399 400) = false := by
  refine ⟨?_, ?_, ?_, ?_, ?_, ?_⟩ <;> with_unfolding_all decide

/-- C2 (amended): the flattening loop emits pairwise-disjoint intervals, each
non-degenerate and contained in the union of the cue time ranges, and every
instant of the union is either covered by an emitted interval or lies inside
a consecutive-boundary slice narrower than 0.01s (which the loop drops); the
claimed exact tiling holds up to those dropped slices. -/
theorem c2_flattening_tiling :
    (∀ evs : List ExpandedEvent,
      (flattenedIntervals evs).Pairwise (fun p q : ℚ × ℚ => p.2 ≤ q.1)) ∧
    (∀ evs : List ExpandedEvent, ∀ p ∈ flattenedIntervals evs, p.1 < p.2) ∧
    (∀ evs : List ExpandedEvent, ∀ p ∈ flattenedIntervals evs, ∀ x : ℚ,
      p.1 ≤ x → x < p.2 → inUnionQ evs x = true) ∧
    (∀ (evs : List ExpandedEvent) (x : ℚ), inUnionQ evs x = true →
      coveredQ (flattenedIntervals evs) x = true ∨
      ∃ p ∈ pairsOf (boundaryPoints evs), p.1 ≤ x ∧ x < p.2 ∧ p.2 - p.1 < 1/100) := by
  refine ⟨?_, ?_, ?_, ?_⟩
  · intro evs
    exact List.Pairwise.sublist (List.filter_sublist _)
      (lem_pairs_pairwise (lem_boundary_sorted evs))
  · intro evs p hp
    exact lem_pairs_lt (lem_boundary_sorted evs) (lem_mem_emitted.mp hp).1
  · intro evs p hp x hx1 hx2
    obtain ⟨hpairs, hwide, hact⟩ := lem_mem_emitted.mp hp
    obtain ⟨e, he⟩ := List.exists_mem_of_ne_nil _ hact
    obtain ⟨hev, hes, hem⟩ := lem_mem_activeAt.mp he
    have hlt : p.1 < p.2 := lem_pairs_lt (lem_boundary_sorted evs) hpairs
    have hmid1 : p.1 < (p.1 + p.2) / 2 := by linarith
    have hmid2 : (p.1 + p.2) / 2 < p.2 := by linarith
    have hstart : e.start ≤ p.1 := by
      rcases lem_consec_gap (lem_boundary_sorted evs) hpairs (lem_mem_boundary_start hev) with h | h
      · exact h
      · linarith
    have hstop : p.2 ≤ e.stop := by
      rcases lem_consec_gap (lem_boundary_sorted evs) hpairs (lem_mem_boundary_stop hev) with h | h
      · linarith
      · exact h
    exact lem_inUnion_iff.mpr ⟨e, hev, by linarith, by linarith⟩
  · intro evs x hx
    obtain ⟨e, hev, hes, hex⟩ := lem_inUnion_iff.mp hx
    obtain ⟨p, hp, hp1, hp2⟩ :=
      lem_locate (lem_boundary_sorted evs) (lem_mem_boundary_start hev)
        (lem_mem_boundary_stop hev) hes hex
    by_cases hnarrow : p.2 - p.1 < 1/100
    · exact Or.inr ⟨p, hp, hp1, hp2, hnarrow⟩
    · left
      have hlt : p.1 < p.2 := lem_pairs_lt (lem_boundary_sorted evs) hp
      have hstart : e.start ≤ p.1 := by
        rcases lem_consec_gap (lem_boundary_sorted evs) hp (lem_mem_boundary_start hev) with h | h
        · exact h
        · linarith
      have hstop : p.2 ≤ e.stop := by
        rcases lem_consec_gap (lem_boundary_sorted evs) hp (lem_mem_boundary_stop hev) with h | h
        · linarith
        · exact h
      have hmem : p ∈ emittedPairs evs := by
        refine lem_mem_emitted.mpr ⟨hp, hnarrow, ?_⟩
        intro hnil
        have : e ∈ activeAt evs ((p.1 + p.2) / 2) :=
          lem_mem_activeAt.mpr ⟨hev, by linarith, by linarith⟩
        rw [hnil] at this
        exact absurd this (List.not_mem_nil e)
      exact lem_covered_iff.mpr ⟨p, hmem, hp1, hp2⟩

/-- C2 witness: parts of `c2_flattening_tiling` applied at the concrete
events `c2Events`, the emitted interval `(0, 0.995)` and the instant `0.5`. -/
theorem c2_flattening_tiling_witness :
    inUnionQ c2Events (mkRat 1 2) = true ∧
    (coveredQ (flattenedIntervals c2Events) (mkRat 1 2) = true ∨
      ∃ p ∈ pairsOf (boundaryPoints c2Events),
        p.1 ≤ mkRat 1 2 ∧ mkRat 1 2 < p.2 ∧ p.2 - p.1 < 1/100) :=
  ⟨c2_flattening_tiling.2.2.1 c2Events (0, mkRat 199 200)
      (by with_unfolding_all decide) (mkRat 1 2)
      (by with_unfolding_all decide) (by with_unfolding_all decide),
    c2_flattening_tiling.2.2.2 c2Events (mkRat 1 2) (by with_unfolding_all decide)⟩

theorem lem_runLines_none : ∀ rest : List Str, runLines none rest = none := by
  have habs : ∀ ls : List Str,
      ls.foldl (fun acc l => acc.bind (fun st => stepLine st l)) (none : Option PState) = none := by
    intro ls
    induction ls with
    | nil => rfl
    | cons a t ih => simpa using ih
  intro rest
  simp [runLines, habs]

/-- C3 counterexample: with background `#000000` the packed ASS alpha is `0`,
i.e. fully opaque (the CSS alpha is 255), so under the claim no box event may
be emitted; yet the generated dialogue list still contains the layer-0
`Default_Box` event — the source emits the box row unconditionally. -/
theorem c3_box_unconditional_cex :
    hexToAssColor opaqueBgStyle.backgroundColor = some ⟨0, 0, 0, 0⟩ ∧
    mergedEvents c3Events = [c3Merged] ∧
    allDialogues c3Events =
      [⟨0, 0, 1, "Default_Box".data, 960, 972, "Hi".data⟩,
       ⟨2, 0, 1, "Default_Inner".data, 960, 972, "Hi".data⟩,
       ⟨3, 0, 1, "Default_Text".data, 960, 972, "Hi".data⟩] := by
  refine ⟨?_, ?_, ?_⟩ <;> with_unfolding_all decide

/-- C3 (amended): every stacked line of every flattened interval emits at
most 4 dialogue events in strictly increasing layer order — the box event
unconditionally (regardless of the background alpha), the outer-outline event
exactly when the style has a positive scaled outer-outline width, and the
inner-outline and text-fill events always — all sharing the interval's
`(start, end)`, the line's anchor position and its text. -/
theorem c3_layered_emission :
    ∀ (evs : List ExpandedEvent) (m : MergedEvent), m ∈ mergedEvents evs →
      ((dialoguesFor m).map (fun d => d.layer) =
        if m.hasOuter then [0, 1, 2, 3] else [0, 2, 3]) ∧
      (dialoguesFor m).length ≤ 4 ∧
      (∀ d ∈ dialoguesFor m, d.start = m.start ∧ d.stop = m.stop ∧
        d.posX = (posFor m.alignment m.marginV).1 ∧
        d.posY = (posFor m.alignment m.marginV).2 ∧ d.lineText = m.lineText) ∧
      ((∃ d ∈ dialoguesFor m, d.layer = 1) ↔ m.hasOuter = true) ∧
      (∃ d ∈ dialoguesFor m, d.layer = 0 ∧ d.styleRef = m.styleName ++ "_Box".data) ∧
      (∃ d ∈ dialoguesFor m, d.layer = 2 ∧ d.styleRef = m.styleName ++ "_Inner".data) ∧
      (∃ d ∈ dialoguesFor m, d.layer = 3 ∧ d.styleRef = m.styleName ++ "_Text".data) := by
  intro evs m _
  cases hOut : m.hasOuter <;>
    simp [dialoguesFor, hOut]

/-- C3 witness: the emission theorem applied to the concrete merged line of
`c3Events`; its dialogue layers are `[0, 2, 3]`. -/
theorem c3_layered_emission_witness :
    (dialoguesFor c3Merged).map (fun d => d.layer) =
      if c3Merged.hasOuter then [0, 1, 2, 3] else [0, 2, 3] :=
  (c3_layered_emission c3Events c3Merged (by with_unfolding_all decide)).1

/-- C4 counterexample: the VTT input `c4BadLines` contains one malformed
timing line among well-formed cues; the claim demands that the parse still
complete with the events of the two well-formed cues (which `c4GoodLines`
shows to be `Hi` and `Yo`), but the parse of `c4BadLines` aborts with an
uncaught error instead: `parse_vtt_time` has no exception handler. -/
theorem c4_skip_malformed_cue_cex :
    parseVtt c4BadLines = none ∧
    parseVtt c4BadLines ≠ some [⟨1, 2, "Hi".data⟩, ⟨6, 7, "Yo".data⟩] ∧
    parseVtt c4GoodLines = some [⟨1, 2, "Hi".data⟩, ⟨6, 7, "Yo".data⟩] := by
  refine ⟨?_, ?_, ?_⟩ <;> with_unfolding_all decide

/-- C4 (amended): a timing line with a non-numeric time group raises an
uncaught error: from every parser state, processing such a line yields the
error state, and the error is absorbing for the rest of the input, so the
whole parse aborts and emits no events at all (rather than skipping only the
offending cue). -/
theorem c4_malformed_time_aborts :
    (∀ st : PState, stepLine st malformedTimingLine = none) ∧
    (∀ (st : PState) (rest : List Str),
      runLines (stepLine st malformedTimingLine) rest = none) := by
  have hstep : ∀ st : PState, stepLine st malformedTimingLine = none := by
    intro st
    with_unfolding_all rfl
  exact ⟨hstep, fun st rest => by rw [hstep st]; exact lem_runLines_none rest⟩

/-- C5 counterexample: `#fff` has hex-digit length 3, neither 6 nor 8, yet
`hex_to_ass_color` raises no `InvalidColor` error — it falls through to the
zero defaults and returns opaque black `&H00000000`. -/
theorem c5_invalid_color_cex :
    hexToAssColor "#fff".data = some ⟨0, 0, 0, 0⟩ ∧
    hexToAssColor "#fff".data ≠ none := by
  refine ⟨?_, ?_⟩ <;> decide

/-- C5 (amended): after stripping leading `#`, a 6-hex-digit colour packs
with ASS alpha 0 (fully opaque), an 8-hex-digit colour packs with ASS alpha
`255 - AA` (CSS opacity inverted), and every other length silently returns
the packed opaque black `⟨0,0,0,0⟩` instead of failing with `InvalidColor`. -/
theorem c5_hex_color :
    (∀ s : Str, hexToAssColor s = hexCore (s.dropWhile (· == '#'))) ∧
    (∀ c0 c1 c2 c3 c4 c5 : Char, ∀ r g b : ℕ,
      hexPairVal c0 c1 = some r → hexPairVal c2 c3 = some g →
      hexPairVal c4 c5 = some b →
      hexCore [c0, c1, c2, c3, c4, c5] = some ⟨0, b, g, r⟩) ∧
    (∀ c0 c1 c2 c3 c4 c5 c6 c7 : Char, ∀ r g b aa : ℕ,
      hexPairVal c0 c1 = some r → hexPairVal c2 c3 = some g →
      hexPairVal c4 c5 = some b → hexPairVal c6 c7 = some aa →
      hexCore [c0, c1, c2, c3, c4, c5, c6, c7] = some ⟨255 - aa, b, g, r⟩) ∧
    (∀ h : Str, h.length ≠ 6 → h.length ≠ 8 → hexCore h = some ⟨0, 0, 0, 0⟩) := by
  refine ⟨fun s => rfl, ?_, ?_, ?_⟩
  · intro c0 c1 c2 c3 c4 c5 r g b h1 h2 h3
    simp [hexCore, h1, h2, h3]
  · intro c0 c1 c2 c3 c4 c5 c6 c7 r g b aa h1 h2 h3 h4
    simp [hexCore, h1, h2, h3, h4]
  · intro h h6 h8
    rw [hexCore.eq_def]
    split
    · simp at h6
    · simp at h8
    · rfl

/-- C5 witness: the colour codec theorem applied to `ffffff` (opaque),
`00000080` (scenario B: packed alpha 127 = 255 - 128) and the length-3
string `fff`. -/
theorem c5_hex_color_witness :
    hexCore ['f', 'f', 'f', 'f', 'f', 'f'] = some ⟨0, 255, 255, 255⟩ ∧
    hexCore ['0', '0', '0', '0', '0', '0', '8', '0'] = some ⟨127, 0, 0, 0⟩ ∧
    hexCore ['f', 'f', 'f'] = some ⟨0, 0, 0, 0⟩ :=
  ⟨c5_hex_color.2.1 'f' 'f' 'f' 'f' 'f' 'f' 255 255 255
      (by decide) (by decide) (by decide),
    c5_hex_color.2.2.1 '0' '0' '0' '0' '0' '0' '8' '0' 0 0 0 128
      (by decide) (by decide) (by decide) (by decide),
    c5_hex_color.2.2.2 ['f', 'f', 'f'] (by decide) (by decide)⟩

/-- C6 counterexample: the style `{outerOutlineWidth = 0.5, shadowBlur = 5}`
has `outerOutlineWidth > 0`, so under the claim the shadow must sit on the
outer-outline row; but the code tests the scaled integer width
`int(0.5 * 1.5) = 0`, emits no outer row at all, and puts the scaled shadow 7
on the inner row. -/
theorem c6_fractional_width_cex :
    (0 : ℚ) < c6FracStyle.outerOutlineWidth ∧
    (createStyleDef "Default".data c6FracStyle 1).2 = false ∧
    (createStyleDef "Default".data c6FracStyle 1).1.map (fun r => r.name) =
      ["Default_Box".data, "Default_Inner".data, "Default_Text".data] ∧
    (createStyleDef "Default".data c6FracStyle 1).1.map (fun r => r.shadow) = [0, 7, 0] := by
  refine ⟨?_, ?_, ?_, ?_⟩ <;> with_unfolding_all decide

/-- C6 (amended): the outer/inner shadow split is decided by the scaled
integer width `int(outerOutlineWidth * 1.5)` (which coincides with
`outerOutlineWidth > 0` for integer-valued widths): when it is positive, the
scaled shadow is attached to the `_Outer` row only, with 0 on the `_Inner`
row; when it is zero, no `_Outer` row exists and the scaled shadow is
attached to the `_Inner` row; it is never attached to both.  In particular
`{outer 0, blur 5}` puts shadow 7 on the inner row only and `{outer 3,
blur 5}` puts shadow 7 on the outer row with 0 on the inner row. -/
theorem c6_shadow_attachment :
    (∀ (name : Str) (st : StyleObj) (hm : ℚ),
      0 < pyTrunc (st.outerOutlineWidth * (3/2)) →
      (createStyleDef name st hm).2 = true ∧
      (createStyleDef name st hm).1.map (fun r => r.name) =
        [name ++ "_Box".data, name ++ "_Outer".data,
          name ++ "_Inner".data, name ++ "_Text".data] ∧
      (createStyleDef name st hm).1.map (fun r => r.shadow) =
        [0, pyTrunc (st.shadowBlur * (3/2)), 0, 0]) ∧
    (∀ (name : Str) (st : StyleObj) (hm : ℚ),
      pyTrunc (st.outerOutlineWidth * (3/2)) = 0 →
      (createStyleDef name st hm).2 = false ∧
      (createStyleDef name st hm).1.map (fun r => r.name) =
        [name ++ "_Box".data, name ++ "_Inner".data, name ++ "_Text".data] ∧
      (createStyleDef name st hm).1.map (fun r => r.shadow) =
        [0, pyTrunc (st.shadowBlur * (3/2)), 0]) ∧
    (createStyleDef "Default".data c6InnerStyle 1).1.map (fun r => r.shadow) = [0, 7, 0] ∧
    (createStyleDef "Default".data c6OuterStyle 1).1.map (fun r => r.shadow) = [0, 7, 0, 0] := by
  refine ⟨?_, ?_, by with_unfolding_all decide, by with_unfolding_all decide⟩
  · intro name st hm hpos
    have hne : ¬(pyTrunc (st.outerOutlineWidth * (3/2)) = 0) := by omega
    refine ⟨by simp [createStyleDef, hpos], ?_, ?_⟩ <;>
      simp [createStyleDef, hpos, hne]
  · intro name st hm hz
    refine ⟨by simp [createStyleDef, hz], ?_, ?_⟩ <;>
      simp [createStyleDef, hz]

/-- C6 witness: the attachment theorem applied to the two scenario-C styles
(scaled outer widths 4 and 0 respectively). -/
theorem c6_shadow_attachment_witness :
    (createStyleDef "Default".data c6OuterStyle 1).2 = true ∧
    (createStyleDef "Default".data c6InnerStyle 1).2 = false :=
  ⟨(c6_shadow_attachment.1 "Default".data c6OuterStyle 1
      (by with_unfolding_all decide)).1,
    (c6_shadow_attachment.2.1 "Default".data c6InnerStyle 1
      (by with_unfolding_all decide)).1⟩

theorem lem_getD_set_self : ∀ (l : List ℚ) (i : ℕ) (v : ℚ), i < l.length →
    (l.set i v).getD i 0 = v := by
  intro l
  induction l with
  | nil => intro i v h; simp at h
  | cons a t ih =>
    intro i v h
    cases i with
    | zero => rfl
    | succ n =>
      simp only [List.set, List.getD_cons_succ]
      exact ih n v (by simpa using h)

theorem lem_getD_set_ne : ∀ (l : List ℚ) (i j : ℕ) (v : ℚ), i ≠ j →
    (l.set i v).getD j 0 = l.getD j 0 := by
  intro l
  induction l with
  | nil => intro i j v _; simp
  | cons a t ih =>
    intro i j v h
    cases i with
    | zero =>
      cases j with
      | zero => exact absurd rfl h
      | succ m => simp [List.getD_cons_succ]
    | succ n =>
      cases j with
      | zero => simp [List.getD_cons_zero]
      | succ m =>
        simp only [List.set, List.getD_cons_succ]
        exact ih n m v (by omega)

theorem lem_argmin_foldl (l : List ℚ) :
    ∀ (idxs : List ℕ) (b : ℕ),
      ((idxs.foldl (fun best i => if l.getD i 0 < l.getD best 0 then i else best) b) = b ∨
        (idxs.foldl (fun best i => if l.getD i 0 < l.getD best 0 then i else best) b) ∈ idxs) ∧
      l.getD (idxs.foldl (fun best i => if l.getD i 0 < l.getD best 0 then i else best) b) 0 ≤
        l.getD b 0 ∧
      ∀ i ∈ idxs,
        l.getD (idxs.foldl (fun best i => if l.getD i 0 < l.getD best 0 then i else best) b) 0 ≤
          l.getD i 0 := by
  intro idxs
  induction idxs with
  | nil => intro b; exact ⟨Or.inl rfl, le_refl _, by simp⟩
  | cons j t ih =>
    intro b
    rw [List.foldl_cons]
    obtain ⟨hmem, hle, hall⟩ := ih (if l.getD j 0 < l.getD b 0 then j else b)
    have hble : l.getD (if l.getD j 0 < l.getD b 0 then j else b) 0 ≤ l.getD b 0 := by
      split
      · exact le_of_lt (by assumption)
      · exact le_refl _
    have hbj : l.getD (if l.getD j 0 < l.getD b 0 then j else b) 0 ≤ l.getD j 0 := by
      split
      · exact le_refl _
      · exact le_of_not_lt (by assumption)
    refine ⟨?_, le_trans hle hble, ?_⟩
    · rcases hmem with h | h
      · rw [h]
        split
        · exact Or.inr (List.mem_cons_self _ _)
        · exact Or.inl rfl
      · exact Or.inr (List.mem_cons_of_mem _ h)
    · intro i hi
      rcases List.mem_cons.mp hi with rfl | h
      · exact le_trans hle hbj
      · exact hall i h

theorem lem_argmin_lt (l : List ℚ) (h : l ≠ []) : argminIdx l < l.length := by
  have hpos : 0 < l.length := List.length_pos.mpr h
  rcases (lem_argmin_foldl l (List.range l.length) 0).1 with h0 | hmem
  · rw [argminIdx, h0]; exact hpos
  · exact List.mem_range.mp hmem

theorem lem_argmin_min (l : List ℚ) : ∀ i < l.length,
    l.getD (argminIdx l) 0 ≤ l.getD i 0 := by
  intro i hi
  exact (lem_argmin_foldl l (List.range l.length) 0).2.2 i (List.mem_range.mpr hi)

/-- C7: for every lane state and every shuffle outcome (any permutation of
the lane indices), the chosen lane is in range; if the chosen lane's
available-after time exceeds the comment's start (an occupied lane was
taken), then every lane's available-after time exceeds the start (the
fallback path) and the chosen lane has the globally minimal available-after
time; and in every case the update sets the chosen lane's available-after
time to `start + duration * 0.3` and leaves every other lane unchanged. -/
theorem c7_lane_selection :
    ∀ (avail : List ℚ) (perm : List ℕ) (start dur : ℚ),
      avail ≠ [] → perm.Perm (List.range avail.length) →
      chooseLane avail perm start < avail.length ∧
      (start < avail.getD (chooseLane avail perm start) 0 →
        (∀ i < avail.length, start < avail.getD i 0) ∧
        ∀ i < avail.length,
          avail.getD (chooseLane avail perm start) 0 ≤ avail.getD i 0) ∧
      (updateLanes avail (chooseLane avail perm start) start dur).getD
          (chooseLane avail perm start) 0 = start + dur * (3/10) ∧
      ∀ i, i ≠ chooseLane avail perm start →
        (updateLanes avail (chooseLane avail perm start) start dur).getD i 0 =
          avail.getD i 0 := by
  intro avail perm start dur hne hperm
  have hlen : chooseLane avail perm start < avail.length := by
    cases hf : perm.find? (fun i => decide (avail.getD i 0 ≤ start)) with
    | some i =>
      have hmem : i ∈ perm := List.mem_of_find?_eq_some hf
      have : chooseLane avail perm start = i := by unfold chooseLane; rw [hf]
      rw [this]
      exact List.mem_range.mp (hperm.mem_iff.mp hmem)
    | none =>
      have : chooseLane avail perm start = argminIdx avail := by unfold chooseLane; rw [hf]
      rw [this]
      exact lem_argmin_lt avail hne
  refine ⟨hlen, ?_, ?_, ?_⟩
  · intro hgt
    cases hf : perm.find? (fun i => decide (avail.getD i 0 ≤ start)) with
    | some i =>
      have hp := List.find?_some hf
      rw [decide_eq_true_eq] at hp
      have hcl : chooseLane avail perm start = i := by unfold chooseLane; rw [hf]
      rw [hcl] at hgt
      exact absurd hp (not_le.mpr hgt)
    | none =>
      have hcl : chooseLane avail perm start = argminIdx avail := by unfold chooseLane; rw [hf]
      refine ⟨?_, ?_⟩
      · intro i hi
        have hip : i ∈ perm := hperm.mem_iff.mpr (List.mem_range.mpr hi)
        have hni := List.find?_eq_none.mp hf i hip
        exact lt_of_not_le (fun hle => hni (decide_eq_true hle))
      · rw [hcl]
        exact lem_argmin_min avail
  · exact lem_getD_set_self avail _ _ hlen
  · intro i hi
    exact lem_getD_set_ne avail _ i _ (fun h => hi h.symm)

/-- C7 witness: with lanes `[5, 1, 3]` all busy at start 0 and shuffle order
`[2, 0, 1]`, the fallback picks lane 1, the globally minimal lane. -/
theorem c7_lane_selection_witness :
    chooseLane [5, 1, 3] [2, 0, 1] 0 < ([5, 1, 3] : List ℚ).length ∧
    ∀ i < ([5, 1, 3] : List ℚ).length,
      ([5, 1, 3] : List ℚ).getD (chooseLane [5, 1, 3] [2, 0, 1] 0) 0 ≤
        ([5, 1, 3] : List ℚ).getD i 0 := by
  have h := c7_lane_selection [5, 1, 3] [2, 0, 1] 0 10
    (by with_unfolding_all decide) (by with_unfolding_all decide)
  exact ⟨h.1, (h.2.1 (by with_unfolding_all decide)).2⟩

/-- C8 counterexample: with the declared defaults `speed_min = 8`,
`speed_max = 12`, a draw of 650 px/s lies inside the code's hard-coded
`uniform(600, 700)` band and yields duration `2704/650`; no speed inside the
configured `[8, 12]` band produces that duration, so the speed is not drawn
from the configured band. -/
theorem c8_speed_band_cex :
    speedBandLo ≤ 650 ∧ (650 : ℚ) ≤ speedBandHi ∧
    (danmakuTiming 1920 4 48 8 12 0 650).1 = 2704 / 650 ∧
    ¬∃ s : ℚ, 8 ≤ s ∧ s ≤ 12 ∧
      (danmakuTiming 1920 4 48 8 12 0 650).1 = danmakuDistance 1920 4 48 / s := by
  have hdist : danmakuDistance 1920 4 48 = 2704 := by
    simp [danmakuDistance, danmakuStartX, danmakuEndX, estimatedWidth]
    norm_num
  refine ⟨by norm_num [speedBandLo], by norm_num [speedBandHi], ?_, ?_⟩
  · simp [danmakuTiming, hdist]
  · rintro ⟨s, h8, h12, heq⟩
    simp only [danmakuTiming, hdist] at heq
    have h0 : s ≠ 0 := ne_of_gt (by linarith)
    rw [div_eq_div_iff (by norm_num) h0] at heq
    have hs : s = 650 := by linarith
    rw [hs] at h12
    norm_num at h12

/-- C8 (amended): the scroll duration equals the total travel distance
(screen width + 100 px entry buffer + estimated text width + 300 px exit
buffer) divided by the drawn speed, and the end time is start + duration;
the `speed_min`/`speed_max` parameters are ignored — the output is identical
for any values of them — and the speed is instead drawn from the fixed
`[600, 700]` px/s band. -/
theorem c8_scroll_duration :
    (∀ (resX : ℚ) (textLen : ℕ) (fontSize smin smax start speed : ℚ),
      danmakuTiming resX textLen fontSize smin smax start speed =
        ((resX + 100 + ((textLen : ℚ) * fontSize * 2 + 300)) / speed,
          start + (resX + 100 + ((textLen : ℚ) * fontSize * 2 + 300)) / speed)) ∧
    (∀ (resX : ℚ) (textLen : ℕ) (fontSize smin smax smin' smax' start speed : ℚ),
      danmakuTiming resX textLen fontSize smin smax start speed =
        danmakuTiming resX textLen fontSize smin' smax' start speed) ∧
    speedBandLo = 600 ∧ speedBandHi = 700 := by
  refine ⟨?_, fun _ _ _ _ _ _ _ _ _ => rfl, rfl, rfl⟩
  intro resX textLen fontSize smin smax start speed
  simp only [danmakuTiming, danmakuDistance, danmakuStartX, danmakuEndX, estimatedWidth,
    Prod.mk.injEq]
  constructor <;> ring_nf

theorem lem_overlayWiring_append (a b : List FNode) :
    overlayWiring (a ++ b) = overlayWiring a ++ overlayWiring b := by
  simp [overlayWiring, List.filterMap_append]

theorem lem_preChain_wiring (crop : Option CropParams) (a916 : Bool) :
    overlayWiring (preChain crop a916).1 = [] := by
  unfold preChain
  rcases crop with _ | c
  · cases a916 <;> simp [overlayWiring]
  · by_cases h : 0 < c.w ∧ 0 < c.h <;> cases a916 <;> simp [overlayWiring, h]

theorem lem_emojiChain_derives (ns : List FNode) (base : Str) :
    ∀ (emojis : List EmojiOverlay) (i : ℕ) (cur : Str),
      (∀ n ∈ emojiChain i cur emojis, n ∈ ns) → DerivesFrom ns base cur →
      ∀ pr ∈ overlayWiring (emojiChain i cur emojis),
        DerivesFrom ns base pr.1 ∧ DerivesFrom ns base pr.2 := by
  intro emojis
  induction emojis with
  | nil => intro i cur _ _ pr hpr; simp [emojiChain, overlayWiring] at hpr
  | cons ov rest ih =>
    intro i cur hsub hcur pr hpr
    have hov : FNode.overlayNode cur (imgLbl i) (vEmojiLbl i) ov.startT ov.stopT ∈ ns :=
      hsub _ (by
        rw [emojiChain]
        exact List.mem_cons_of_mem _ (List.mem_cons_of_mem _ (List.mem_cons_self _ _)))
    have hout : DerivesFrom ns base (vEmojiLbl i) := DerivesFrom.step hov hcur
    have hw : overlayWiring (emojiChain i cur (ov :: rest)) =
        (cur, vEmojiLbl i) :: overlayWiring (emojiChain (i + 1) (vEmojiLbl i) rest) := rfl
    rw [hw] at hpr
    rcases List.mem_cons.mp hpr with rfl | h
    · exact ⟨hcur, hout⟩
    · exact ih (i + 1) (vEmojiLbl i)
        (fun n hn => hsub n (by
          rw [emojiChain]
          exact List.mem_cons_of_mem _ (List.mem_cons_of_mem _ (List.mem_cons_of_mem _ hn))))
        hout pr h

theorem lem_burnChain_derives (ns : List FNode) (base : Str) :
    ∀ (ovs : List ImgOverlay) (total i : ℕ) (cur : Str),
      (∀ n ∈ burnChain total i cur ovs, n ∈ ns) → DerivesFrom ns base cur →
      ∀ pr ∈ overlayWiring (burnChain total i cur ovs),
        DerivesFrom ns base pr.1 ∧ DerivesFrom ns base pr.2 := by
  intro ovs
  induction ovs with
  | nil => intro total i cur _ _ pr hpr; simp [burnChain, overlayWiring] at hpr
  | cons ov rest ih =>
    intro total i cur hsub hcur pr hpr
    have hov : FNode.overlayNode cur (imgLbl i)
        (if i + 1 = total then "[out]".data else vLbl (i + 1)) ov.startT ov.stopT ∈ ns :=
      hsub _ (by
        rw [burnChain]
        exact List.mem_cons_of_mem _ (List.mem_cons_self _ _))
    have hout : DerivesFrom ns base (if i + 1 = total then "[out]".data else vLbl (i + 1)) :=
      DerivesFrom.step hov hcur
    have hw : overlayWiring (burnChain total i cur (ov :: rest)) =
        (cur, if i + 1 = total then "[out]".data else vLbl (i + 1)) ::
          overlayWiring (burnChain total (i + 1)
            (if i + 1 = total then "[out]".data else vLbl (i + 1)) rest) := rfl
    rw [hw] at hpr
    rcases List.mem_cons.mp hpr with rfl | h
    · exact ⟨hcur, hout⟩
    · exact ih total (i + 1) _
        (fun n hn => hsub n (by
          rw [burnChain]
          exact List.mem_cons_of_mem _ (List.mem_cons_of_mem _ hn)))
        hout pr h

/-- C9: in every `extract_clip` filter graph that contains a danmaku
subtitle-burn stage, and in every `burn_subtitles_with_ffmpeg` graph with
image overlays, the subtitle-burn node is present and the video input (and
output) of every image-overlay node derives from the subtitle-burned stream —
overlays are painted on top of, never beneath, the burned captions. -/
theorem c9_burn_before_overlays :
    (∀ (crop : Option CropParams) (a916 : Bool) (p : Str) (emojis : List EmojiOverlay),
      (∃ inp, FNode.subBurn inp "[danmaku]".data p ∈
        (extractClipFilters crop a916 (some p) emojis).1) ∧
      ∀ pr ∈ overlayWiring (extractClipFilters crop a916 (some p) emojis).1,
        DerivesFrom (extractClipFilters crop a916 (some p) emojis).1 "[danmaku]".data pr.1 ∧
        DerivesFrom (extractClipFilters crop a916 (some p) emojis).1 "[danmaku]".data pr.2) ∧
    (∀ (ass : Str) (ovs : List ImgOverlay), ovs ≠ [] →
      FNode.subBurn "[0:v]".data "[subt]".data ass ∈ burnFilters ass ovs ∧
      ∀ pr ∈ overlayWiring (burnFilters ass ovs),
        DerivesFrom (burnFilters ass ovs) "[subt]".data pr.1 ∧
        DerivesFrom (burnFilters ass ovs) "[subt]".data pr.2) := by
  constructor
  · intro crop a916 p emojis
    have hdef : (extractClipFilters crop a916 (some p) emojis).1 =
        (preChain crop a916).1 ++
          (FNode.subBurn (preChain crop a916).2 "[danmaku]".data p ::
            emojiChain 0 "[danmaku]".data emojis) := by
      simp [extractClipFilters]
    constructor
    · exact ⟨(preChain crop a916).2, by
        rw [hdef]; exact List.mem_append_right _ (List.mem_cons_self _ _)⟩
    · intro pr hpr
      rw [hdef, lem_overlayWiring_append] at hpr
      rw [lem_preChain_wiring] at hpr
      have hw : overlayWiring
          (FNode.subBurn (preChain crop a916).2 "[danmaku]".data p ::
            emojiChain 0 "[danmaku]".data emojis) =
          overlayWiring (emojiChain 0 "[danmaku]".data emojis) := rfl
      rw [hw] at hpr
      rw [List.nil_append] at hpr
      refine lem_emojiChain_derives _ "[danmaku]".data emojis 0 "[danmaku]".data
        (fun n hn => ?_) DerivesFrom.refl pr hpr
      rw [hdef]
      exact List.mem_append_right _ (List.mem_cons_of_mem _ hn)
  · intro ass ovs hne
    have hdef : burnFilters ass ovs =
        FNode.subBurn "[0:v]".data "[subt]".data ass ::
          burnChain ovs.length 0 "[subt]".data ovs := by
      simp [burnFilters, List.isEmpty_iff, hne]
    constructor
    · rw [hdef]; exact List.mem_cons_self _ _
    · intro pr hpr
      rw [hdef] at hpr
      have hw : overlayWiring
          (FNode.subBurn "[0:v]".data "[subt]".data ass ::
            burnChain ovs.length 0 "[subt]".data ovs) =
          overlayWiring (burnChain ovs.length 0 "[subt]".data ovs) := rfl
      rw [hw] at hpr
      refine lem_burnChain_derives _ "[subt]".data ovs ovs.length 0 "[subt]".data
        (fun n hn => ?_) DerivesFrom.refl pr hpr
      rw [hdef]
      exact List.mem_cons_of_mem _ hn

/-- C9 witness: in the concrete two-emoji graph `c9Graph` both overlay inputs
derive from the danmaku subtitle-burn output, and the single-image burn graph
contains its subtitle node. -/
theorem c9_burn_before_overlays_witness :
    (DerivesFrom c9Graph "[danmaku]".data (vEmojiLbl 0) ∧
      DerivesFrom c9Graph "[danmaku]".data (vEmojiLbl 1)) ∧
    FNode.subBurn "[0:v]".data "[subt]".data "a.ass".data ∈
      burnFilters "a.ass".data c9Imgs :=
  ⟨(c9_burn_before_overlays.1 none false "d.ass".data c9Emojis).2
      (vEmojiLbl 0, vEmojiLbl 1) (by with_unfolding_all decide),
    (c9_burn_before_overlays.2 "a.ass".data c9Imgs (by decide)).1⟩

theorem lem_mem_stackLines {t0 t1 : ℚ} {g : List ExpandedEvent} {m : MergedEvent}
    (hm : m ∈ stackLines t0 t1 g) :
    ∃ primary rest, g = primary :: rest ∧ ∃ k, k < (linesOf g).length ∧
      m = ⟨t0, t1, primary.styleName, primary.hasOuter, primary.alignment,
        (linesOf g).getD k [], stackMarginV primary (linesOf g).length k⟩ := by
  cases g with
  | nil => simp [stackLines] at hm
  | cons primary rest =>
    refine ⟨primary, rest, rfl, ?_⟩
    simp only [stackLines] at hm
    obtain ⟨pk, hpk, heq⟩ := List.mem_map.mp hm
    rcases pk with ⟨k, lt⟩
    obtain ⟨hklen, hkval⟩ := List.mem_enum hpk
    refine ⟨k, hklen, ?_⟩
    rw [← heq]
    have hgd : (linesOf (primary :: rest)).getD k [] = (linesOf (primary :: rest))[k] :=
      List.getD_eq_getElem _ _ hklen
    simp only [hgd, ← hkval]

/-- C10: every line of a merged group is emitted with the style name,
has-outer flag and the font-size/base-margin-derived vertical offset of the
FIRST active event in encounter order that shares the group's alignment; the
other events of the group contribute only lines of text. -/
theorem c10_primary_style_dominates :
    ∀ (evs : List ExpandedEvent) (m : MergedEvent), m ∈ mergedEvents evs →
      ∃ primary rest,
        (activeAt evs ((m.start + m.stop) / 2)).filter
            (fun e => e.alignment == m.alignment) = primary :: rest ∧
        m.styleName = primary.styleName ∧
        m.hasOuter = primary.hasOuter ∧
        m.alignment = primary.alignment ∧
        ∃ k, k < (linesOf (primary :: rest)).length ∧
          m.lineText = (linesOf (primary :: rest)).getD k [] ∧
          m.marginV = stackMarginV primary (linesOf (primary :: rest)).length k := by
  intro evs m hm
  rw [mergedEvents] at hm
  obtain ⟨p, hp, hm2⟩ := List.mem_flatMap.mp hm
  obtain ⟨g, hg, hm3⟩ := List.mem_flatMap.mp hm2
  obtain ⟨a, ha, hgeq⟩ := List.mem_map.mp hg
  obtain ⟨primary, rest, hcons, k, hk, hmeq⟩ := lem_mem_stackLines hm3
  have hstart : m.start = p.1 := by rw [hmeq]
  have hstop : m.stop = p.2 := by rw [hmeq]
  have halign : m.alignment = primary.alignment := by rw [hmeq]
  have hpg : primary ∈ g := by rw [hcons]; exact List.mem_cons_self _ _
  have hpa : primary.alignment = a := by
    rw [← hgeq] at hpg
    simpa using (List.mem_filter.mp hpg).2
  refine ⟨primary, rest, ?_, by rw [hmeq], by rw [hmeq], halign, k, ?_, ?_, ?_⟩
  · rw [hstart, hstop, halign, hpa, hgeq, hcons]
  · rw [← hcons]; exact hk
  · rw [hmeq, ← hcons]
  · rw [hmeq, ← hcons]

/-- C10 witness: the theorem applied to the merged `Btext` line of the
two-style scenario `c10Events`: it is emitted with style `A`, the style of
the first active event, not with its own style `B`. -/
theorem c10_primary_style_dominates_witness :
    ∃ primary rest,
      (activeAt c10Events ((c10MergedB.start + c10MergedB.stop) / 2)).filter
          (fun e => e.alignment == c10MergedB.alignment) = primary :: rest ∧
      c10MergedB.styleName = primary.styleName ∧
      c10MergedB.hasOuter = primary.hasOuter ∧
      c10MergedB.alignment = primary.alignment ∧
      ∃ k, k < (linesOf (primary :: rest)).length ∧
        c10MergedB.lineText = (linesOf (primary :: rest)).getD k [] ∧
        c10MergedB.marginV = stackMarginV primary (linesOf (primary :: rest)).length k :=
  c10_primary_style_dominates c10Events c10MergedB (by with_unfolding_all decide)

end SupportClip
